import Mathlib

/-
Verification of the discord-menus flow engine core.

The embedding below models, from the TypeScript source:
- the prompt/phase tree (TreeNode children, per-child optional branch
  condition, optional collection function) as the inductive PromptNode;
- PromptRunner.valid and PromptNode.hasValidChildren (structural validation);
- Phase.getNext / PromptNode.getNext (sequential short-circuit selection),
  plus an instrumented variant that records which condition functions were
  invoked;
- the per-phase collection state machine implemented by Phase.handleCollector,
  Phase.handleMessage and the event handlers installed in Phase.collect
  (timer arming, exit token, accept, rejection feedback loop, error);
- PromptRunner.execute and PromptRunner.run (traversal loop, validation entry
  point), with the fatal-outcome surfacing modelled from the spec where the
  Prompt class itself is not in the source slice.
-/

namespace DiscordMenus

/-- Terminal outcome of one collection phase of a prompt, abstracting the
message environment: the phase either accepts with new data, ends by the
reserved exit token, ends by the inactivity deadline, or fails with an
unexpected error. -/
inductive PhaseResult (T E : Type) : Type where
  | accepted (newData : T)
  | exited
  | inactive
  | failed (err : E)
deriving DecidableEq

/-- A node of the prompt tree: a numeric identity (standing for reference
identity), the optional branch condition of this node, the optional
collection function of its step (abstracted by the terminal phase outcome it
produces for given incoming data), and the ordered child list. Mirrors
PromptNode wrapping a Prompt plus TreeNode children. -/
inductive PromptNode (T E : Type) : Type where
  | mk (id : Nat) (condition : Option (T → Bool))
      (fn : Option (T → PhaseResult T E))
      (children : List (PromptNode T E))

/-- Identity of a node. -/
def PromptNode.id {T E : Type} : PromptNode T E → Nat
  | .mk i _ _ _ => i

/-- Branch condition of a node. -/
def PromptNode.condition {T E : Type} : PromptNode T E → Option (T → Bool)
  | .mk _ c _ _ => c

/-- Collection function of the step bound to a node. -/
def PromptNode.fn {T E : Type} : PromptNode T E → Option (T → PhaseResult T E)
  | .mk _ _ f _ => f

/-- Ordered children of a node. -/
def PromptNode.children {T E : Type} : PromptNode T E → List (PromptNode T E)
  | .mk _ _ _ cs => cs

/-- Eligibility of a child during selection, the test of the loop body of
getNext: a child with no condition is unconditionally eligible, otherwise its
condition is evaluated on the data. -/
def PromptNode.eligible {T E : Type} (child : PromptNode T E) (data : T) : Bool :=
  match child.condition with
  | none => true
  | some cond => cond data

/-- Phase.getNext and PromptNode.getNext: scan the children in declared
order and return the first one with no condition or whose condition
evaluates true; null when none qualifies. -/
def PromptNode.getNext {T E : Type} (n : PromptNode T E) (data : T) :
    Option (PromptNode T E) :=
  n.children.find? (fun child => child.eligible data)

mutual

/-- PromptRunner.valid: the loop computes multipleChildren once, then for
each child returns false if the node has multiple children and the child
lacks a condition, or if the child subtree is itself invalid. -/
def PromptRunner.valid {T E : Type} : PromptNode T E → Bool
  | .mk _ _ _ children =>
    PromptRunner.validChildren (decide (children.length > 1)) children

/-- Loop body of PromptRunner.valid over the child list. -/
def PromptRunner.validChildren {T E : Type} :
    Bool → List (PromptNode T E) → Bool
  | _, [] => true
  | multipleChildren, child :: rest =>
    if multipleChildren && !child.condition.isSome then false
    else if !PromptRunner.valid child then false
    else PromptRunner.validChildren multipleChildren rest

end

/-- PromptNode.hasValidChildren: nodes with at most one child are always
valid; otherwise every child must carry a condition. -/
def PromptNode.hasValidChildren {T E : Type} (n : PromptNode T E) : Bool :=
  if n.children.length ≤ 1 then true
  else n.children.all (fun child => child.condition.isSome)

mutual

/-- All nodes reachable from a node, the node itself included. -/
def PromptNode.allNodes {T E : Type} : PromptNode T E → List (PromptNode T E)
  | .mk i c f children =>
    PromptNode.mk i c f children :: PromptNode.allNodesList children

/-- All nodes reachable from any node of a list of roots. -/
def PromptNode.allNodesList {T E : Type} :
    List (PromptNode T E) → List (PromptNode T E)
  | [] => []
  | child :: rest => PromptNode.allNodes child ++ PromptNode.allNodesList rest

end

/-- Ids of the strict descendants of a node. -/
def PromptNode.subIds {T E : Type} (n : PromptNode T E) : List Nat :=
  (PromptNode.allNodesList n.children).map PromptNode.id

/-- Phase.getNext instrumented with the positions, in the child list, at
which a condition function is actually invoked during the scan: a child with
no condition is returned without invoking anything; a child with a condition
has it invoked, and the scan stops at the first eligible child, so the
conditions of the remaining children are not invoked. -/
def PromptNode.getNextTraced {T E : Type} :
    List (PromptNode T E) → T → Option (PromptNode T E) × List Nat
  | [], _ => (none, [])
  | child :: rest, data =>
    match child.condition with
    | none => (some child, [])
    | some cond =>
      if cond data then (some child, [0])
      else
        let r := PromptNode.getNextTraced rest data
        (r.1, 0 :: r.2.map (· + 1))

/-- Phase.STRINGS.exit, the termination message sent on voluntary exit. -/
def exitString : String := "Menu has been closed."

/-- Phase.STRINGS.inactivity, the termination message sent on inactivity. -/
def inactivityString : String := "Menu has been closed due to inactivity."

/-- Phase.STRINGS.rejected, the default rejection feedback. -/
def rejectedString : String := "That is not a valid input. Try again."

/-- The reserved reply content that triggers voluntary exit. -/
def exitToken : String := "exit"

/-- Result of one invocation of a collection function on a message: normal
completion with new data, a Rejection signal carrying its message string
(the empty string standing for a Rejection constructed without a message),
or any other error. -/
inductive FuncResult (T E : Type) : Type where
  | ok (newData : T)
  | rejection (msg : String)
  | failure (err : E)

/-- Status of a collection phase: collecting, or one of the terminal states
reached through the collector events accept, exit, inactivity and error. -/
inductive PhaseStatus (T E : Type) : Type where
  | collecting
  | accepted (newData : T)
  | exited
  | inactive
  | failed (err : E)

/-- State of one collection phase: its status, the pending inactivity timer
deadline (none when no timer is armed, some d for a timer armed to fire d
milliseconds after phase start), how many times a timer was armed, how many
times the collection function was invoked, the rejection feedback messages
sent on the channel, the termination messages sent on the channel, and the
messages recorded by storeMessage. -/
structure PhaseState (T E : Type) where
  status : PhaseStatus T E
  timerDeadline : Option Nat
  armCount : Nat
  funcCalls : Nat
  feedbackSent : List String
  terminationSent : List String
  stored : List String

/-- Events consumed by a collection phase: a collected message with some
content, or the firing of the inactivity timer. -/
inductive PhaseEvent : Type where
  | message (content : String)
  | timerFire

/-- Start of a collection phase as set up by Phase.handleCollector: a single
timer is armed for the configured duration, but only when the duration is a
truthy number (nonzero); the phase starts collecting with nothing sent or
recorded. -/
def phaseStart {T E : Type} (duration : Nat) : PhaseState T E :=
  { status := .collecting
    timerDeadline := if duration ≠ 0 then some duration else none
    armCount := if duration ≠ 0 then 1 else 0
    funcCalls := 0
    feedbackSent := []
    terminationSent := []
    stored := [] }

/-- One step of the collection phase, combining Phase.handleMessage with the
collector handlers installed by Phase.collect and the timer and stop logic
of Phase.handleCollector. A message whose content equals the exit token ends
the phase in exited before the collection function is invoked, and the exit
termination message is sent and recorded; otherwise the collection function
runs: normal completion accepts and clears the timer, a Rejection keeps
collecting, sends and records the feedback without touching the timer, and
any other error fails the phase with that error, sending no termination
message. The timer firing while collecting ends the phase in inactive and
sends and records the inactivity termination message. Terminal states absorb
all further events, matching the stopped collector and the once handlers. -/
def phaseStep {T E : Type} (func : String → T → FuncResult T E) (data : T)
    (s : PhaseState T E) (e : PhaseEvent) : PhaseState T E :=
  match s.status with
  | .collecting =>
    match e with
    | .message content =>
      if content = exitToken then
        { s with status := .exited
                 timerDeadline := none
                 terminationSent := s.terminationSent ++ [exitString]
                 stored := s.stored ++ [content, exitString] }
      else
        match func content data with
        | .ok newData =>
          { s with status := .accepted newData
                   timerDeadline := none
                   funcCalls := s.funcCalls + 1
                   stored := s.stored ++ [content] }
        | .rejection msg =>
          { s with funcCalls := s.funcCalls + 1
                   feedbackSent := s.feedbackSent ++
                     [if msg = "" then rejectedString else msg]
                   stored := s.stored ++
                     [content, if msg = "" then rejectedString else msg] }
        | .failure err =>
          { s with status := .failed err
                   timerDeadline := none
                   funcCalls := s.funcCalls + 1
                   stored := s.stored ++ [content] }
    | .timerFire =>
      match s.timerDeadline with
      | some _ =>
        { s with status := .inactive
                 timerDeadline := none
                 terminationSent := s.terminationSent ++ [inactivityString]
                 stored := s.stored ++ [inactivityString] }
      | none => s
  | _ => s

/-- A whole collection phase: the start state fed a sequence of events. -/
def phaseRun {T E : Type} (func : String → T → FuncResult T E) (data : T)
    (duration : Nat) (events : List PhaseEvent) : PhaseState T E :=
  events.foldl (phaseStep func data) (phaseStart duration)

/-- Timer facts of a phase with configured duration: the timer was armed
exactly once; while the phase is still collecting, the armed deadline is the
original absolute duration measured from phase start, so rejections neither
cancel nor re-arm it; and on the accept, exit and error terminal outcomes
the timer has been cleared. -/
def timerClaim {T E : Type} (duration : Nat) (s : PhaseState T E) : Prop :=
  s.armCount = 1 ∧
  (s.status = PhaseStatus.collecting → s.timerDeadline = some duration) ∧
  (∀ d, s.status = PhaseStatus.accepted d → s.timerDeadline = none) ∧
  (s.status = PhaseStatus.exited → s.timerDeadline = none) ∧
  (∀ err, s.status = PhaseStatus.failed err → s.timerDeadline = none)

/-- Fatal conditions surfaced by a traversal to the caller of run and
execute: voluntary exit, inactivity, or an unexpected error from a
collection function. -/
inductive Fatal (E : Type) : Type where
  | voluntaryExit
  | inactivity
  | unexpected (err : E)
deriving DecidableEq

/-- Observable effects of a traversal: the ids of the nodes recorded in the
ran trace in order, the ids of the nodes whose format message was sent in
order, the ids of the nodes for which a collector was created, and the
termination messages sent on the channel. -/
structure Effects where
  trace : List Nat
  sends : List Nat
  collectors : List Nat
  termSends : List String
deriving DecidableEq

/-- Effects of a traversal that has not touched anything yet. -/
def Effects.empty : Effects := ⟨[], [], [], []⟩

set_option linter.unusedVariables false in
mutual

/-- Visit of the current node of the traversal loop of PromptRunner.execute
after the node has been recorded in the trace and its format message sent.
shouldRunCollector answers true (Phase.shouldRunCollector), so collect runs:
with no collection function it resolves immediately with the data unchanged
and without creating a collector (Phase.collect); with one, a collector is
created and the phase runs to its terminal outcome. Modelled from the spec:
the surfacing of the VoluntaryExit and Inactivity fatal signals and the
propagation of unexpected errors, since the Prompt class and the error
classes named by the tests are not part of the source slice; Phase.collect
supplies the termination messages sent by terminateHere and the no-function
and error behaviour. -/
def visitNode {T E : Type} (n : PromptNode T E) (data : T) :
    Effects × Except (Fatal E) T :=
  match n.fn with
  | none => visitChildren n data
  | some f =>
    match f data with
    | .accepted newData =>
      let r := visitChildren n newData
      ({ r.1 with collectors := n.id :: r.1.collectors }, r.2)
    | .exited =>
      ({ Effects.empty with
          collectors := [n.id]
          termSends := [exitString] }, Except.error Fatal.voluntaryExit)
    | .inactive =>
      ({ Effects.empty with
          collectors := [n.id]
          termSends := [inactivityString] }, Except.error Fatal.inactivity)
    | .failed err =>
      ({ Effects.empty with collectors := [n.id] },
        Except.error (Fatal.unexpected err))
termination_by 2 * sizeOf n + 1
decreasing_by
  all_goals simp_wf

/-- Branch selection and descent of the traversal loop of
PromptRunner.execute: ask getNext for the next node with the data returned
by the phase; stop normally when none is selected, otherwise send the
selected node, record it and continue there. -/
def visitChildren {T E : Type} (n : PromptNode T E) (data : T) :
    Effects × Except (Fatal E) T :=
  match hnext : n.getNext data with
  | none => (Effects.empty, Except.ok data)
  | some c =>
    let r := visitNode c data
    ({ r.1 with trace := c.id :: r.1.trace, sends := c.id :: r.1.sends }, r.2)
termination_by 2 * sizeOf n
decreasing_by
  simp_wf
  have hmem : c ∈ n.children :=
    List.mem_of_find?_eq_some (by simpa [PromptNode.getNext] using hnext)
  rcases n with ⟨i, cond, f, cs⟩
  have h1 : sizeOf c < sizeOf cs := by
    apply List.sizeOf_lt_of_mem
    simpa [PromptNode.children] using hmem
  simp only [PromptNode.mk.sizeOf_spec]
  omega

end

/-- PromptRunner.execute: record the root in the ran trace, send its format
message, then run the traversal loop from it. -/
def execute {T E : Type} (n : PromptNode T E) (data : T) :
    Effects × Except (Fatal E) T :=
  let r := visitNode n data
  ({ r.1 with trace := n.id :: r.1.trace, sends := n.id :: r.1.sends }, r.2)

/-- Errors surfaced by run: the structural-invalid error thrown before any
execution, or a fatal condition from the traversal. -/
inductive RunError (E : Type) : Type where
  | invalidTree
  | fatal (f : Fatal E)
deriving DecidableEq

/-- PromptRunner.run: validate the whole tree first; when validation fails,
throw the structural-invalid error with nothing sent and no traversal; when
it succeeds, delegate to execute. -/
def run {T E : Type} (n : PromptNode T E) (data : T) :
    Effects × Except (RunError E) T :=
  if PromptRunner.valid n then
    let r := execute n data
    (r.1, r.2.mapError RunError.fatal)
  else (Effects.empty, Except.error RunError.invalidTree)

@[simp] theorem PromptNode.id_mk {T E : Type} (i : Nat) (c : Option (T → Bool))
    (f : Option (T → PhaseResult T E)) (cs : List (PromptNode T E)) :
    (PromptNode.mk i c f cs).id = i := rfl

@[simp] theorem PromptNode.condition_mk {T E : Type} (i : Nat) (c : Option (T → Bool))
    (f : Option (T → PhaseResult T E)) (cs : List (PromptNode T E)) :
    (PromptNode.mk i c f cs).condition = c := rfl

@[simp] theorem PromptNode.fn_mk {T E : Type} (i : Nat) (c : Option (T → Bool))
    (f : Option (T → PhaseResult T E)) (cs : List (PromptNode T E)) :
    (PromptNode.mk i c f cs).fn = f := rfl

@[simp] theorem PromptNode.children_mk {T E : Type} (i : Nat) (c : Option (T → Bool))
    (f : Option (T → PhaseResult T E)) (cs : List (PromptNode T E)) :
    (PromptNode.mk i c f cs).children = cs := rfl

/-- Induction over the prompt tree: to prove a property of every node it
suffices to prove it of a node assuming it of all its children. -/
theorem PromptNode.strongInduction {T E : Type} {motive : PromptNode T E → Prop}
    (step : ∀ i c f children,
      (∀ x ∈ children, motive x) → motive (PromptNode.mk i c f children)) :
    ∀ n, motive n
  | .mk i c f children =>
    step i c f children (fun x hx =>
      have : sizeOf x < sizeOf (PromptNode.mk i c f children) := by
        have h1 := List.sizeOf_lt_of_mem hx
        simp only [PromptNode.mk.sizeOf_spec]
        omega
      PromptNode.strongInduction step x)
termination_by n => sizeOf n

theorem PromptRunner.validChildren_cons {T E : Type} (multi : Bool)
    (child : PromptNode T E) (rest : List (PromptNode T E)) :
    PromptRunner.validChildren multi (child :: rest) =
      ((!multi || child.condition.isSome) && (PromptRunner.valid child &&
        PromptRunner.validChildren multi rest)) := by
  simp only [PromptRunner.validChildren]
  cases multi <;> cases h : child.condition.isSome <;>
    cases h2 : PromptRunner.valid child <;> simp [h, h2]

theorem PromptRunner.validChildren_eq_true {T E : Type} (multi : Bool)
    (l : List (PromptNode T E)) :
    PromptRunner.validChildren multi l = true ↔
      ∀ c ∈ l, (multi = true → c.condition.isSome = true) ∧
        PromptRunner.valid c = true := by
  induction l with
  | nil => simp [PromptRunner.validChildren]
  | cons child rest ih =>
    rw [PromptRunner.validChildren_cons]
    cases multi
    · simp_all
    · simp_all
      tauto

theorem PromptNode.mem_allNodesList {T E : Type} {m : PromptNode T E}
    {l : List (PromptNode T E)} :
    m ∈ PromptNode.allNodesList l ↔ ∃ c ∈ l, m ∈ c.allNodes := by
  induction l with
  | nil => simp [PromptNode.allNodesList]
  | cons c rest ih => simp [PromptNode.allNodesList, ih]

theorem PromptNode.allNodes_def {T E : Type} (n : PromptNode T E) :
    n.allNodes = n :: PromptNode.allNodesList n.children := by
  cases n
  simp [PromptNode.allNodes]

theorem PromptRunner.valid_iff_reachable {T E : Type} (root : PromptNode T E) :
    PromptRunner.valid root = true ↔
      ∀ m ∈ root.allNodes, 1 < m.children.length →
        ∀ c ∈ m.children, c.condition.isSome = true := by
  induction root using PromptNode.strongInduction with
  | step i cond f children ih =>
    rw [show PromptRunner.valid (PromptNode.mk i cond f children) =
          PromptRunner.validChildren (decide (children.length > 1)) children
        from rfl]
    rw [PromptRunner.validChildren_eq_true]
    rw [PromptNode.allNodes_def]
    simp only [List.mem_cons, PromptNode.children_mk, decide_eq_true_eq]
    constructor
    · rintro h m (rfl | hm) hlen x hx
      · simp only [PromptNode.children_mk] at hlen hx
        exact (h x hx).1 hlen
      · obtain ⟨c, hc, hm'⟩ := PromptNode.mem_allNodesList.mp hm
        exact ((ih c hc).mp (h c hc).2) m hm' hlen x hx
    · intro h c hc
      refine ⟨fun hlen => h (PromptNode.mk i cond f children) (Or.inl rfl) ?_ c hc, ?_⟩
      · simpa using hlen
      · exact (ih c hc).mpr (fun m hm =>
          h m (Or.inr (PromptNode.mem_allNodesList.mpr ⟨c, hc, hm⟩)))

theorem PromptNode.hasValidChildren_eq_true {T E : Type} (n : PromptNode T E) :
    n.hasValidChildren = true ↔
      (1 < n.children.length → ∀ c ∈ n.children, c.condition.isSome = true) := by
  unfold PromptNode.hasValidChildren
  by_cases h : n.children.length ≤ 1
  · rw [if_pos h]
    constructor
    · intro _ hlen
      exact absurd hlen (by omega)
    · intro _
      rfl
  · rw [if_neg h]
    rw [List.all_eq_true]
    constructor
    · intro hall _ c hc
      exact hall c hc
    · intro himp c hc
      exact himp (by omega) c hc

theorem PromptRunner.valid_iff_hasValidChildren {T E : Type}
    (root : PromptNode T E) :
    PromptRunner.valid root = true ↔
      ∀ m ∈ root.allNodes, m.hasValidChildren = true := by
  rw [PromptRunner.valid_iff_reachable]
  simp only [PromptNode.hasValidChildren_eq_true]

/-- C1: for every tree of nodes, validate of the root returns true if and
only if every node reachable from the root that has more than one child has
a non-null branch condition on all of its children; a node with zero or one
children never requires conditions on its children, at any depth; per node
this is exactly the hasValidChildren check. -/
theorem claim_C1_validate_iff {T E : Type} (root : PromptNode T E) :
    (PromptRunner.valid root = true ↔
      ∀ m ∈ root.allNodes, 1 < m.children.length →
        ∀ c ∈ m.children, c.condition.isSome = true) ∧
    (PromptRunner.valid root = true ↔
      ∀ m ∈ root.allNodes, m.hasValidChildren = true) :=
  ⟨PromptRunner.valid_iff_reachable root,
    PromptRunner.valid_iff_hasValidChildren root⟩

theorem PromptNode.eligible_of_condition_none {T E : Type}
    {child : PromptNode T E} (data : T) (h : child.condition = none) :
    child.eligible data = true := by
  simp [PromptNode.eligible, h]

theorem PromptNode.eligible_of_condition_some {T E : Type}
    {child : PromptNode T E} {cond : T → Bool} (data : T)
    (h : child.condition = some cond) :
    child.eligible data = cond data := by
  simp [PromptNode.eligible, h]

theorem PromptNode.getNextTraced_fst {T E : Type}
    (l : List (PromptNode T E)) (data : T) :
    (PromptNode.getNextTraced l data).1 = l.find? (fun c => c.eligible data) := by
  induction l with
  | nil => simp [PromptNode.getNextTraced]
  | cons child rest ih =>
    cases h : child.condition with
    | none =>
      rw [List.find?_cons_of_pos (p := fun c => c.eligible data) rest
          (by simpa using PromptNode.eligible_of_condition_none data h)]
      simp [PromptNode.getNextTraced, h]
    | some cond =>
      by_cases hc : cond data
      · rw [List.find?_cons_of_pos (p := fun c => c.eligible data) rest
            (by simpa [PromptNode.eligible_of_condition_some data h] using hc)]
        simp [PromptNode.getNextTraced, h, hc]
      · rw [List.find?_cons_of_neg (p := fun c => c.eligible data) rest
            (by simpa [PromptNode.eligible_of_condition_some data h] using hc)]
        rw [← ih]
        simp [PromptNode.getNextTraced, h, hc]

theorem find?_eq_some_first {α : Type} (p : α → Bool) (l : List α) (a : α) :
    l.find? p = some a ↔
      ∃ j : Nat, l[j]? = some a ∧ p a = true ∧
        ∀ i : Nat, i < j → ∀ b, l[i]? = some b → p b = false := by
  induction l generalizing a with
  | nil => simp
  | cons x rest ih =>
    by_cases hx : p x
    · rw [List.find?_cons_of_pos _ hx]
      constructor
      · rintro h
        injection h with h
        subst h
        exact ⟨0, by simp, hx, by omega⟩
      · rintro ⟨j, hj, _, hfirst⟩
        cases j with
        | zero =>
          simp only [List.getElem?_cons_zero, Option.some.injEq] at hj
          simp [hj]
        | succ j' =>
          have := hfirst 0 (by omega) x (by simp)
          rw [hx] at this
          cases this
    · rw [List.find?_cons_of_neg _ hx]
      rw [ih]
      constructor
      · rintro ⟨j, hj, hpa, hfirst⟩
        refine ⟨j + 1, by simpa using hj, hpa, ?_⟩
        intro i hi b hb
        cases i with
        | zero =>
          simp only [List.getElem?_cons_zero, Option.some.injEq] at hb
          subst hb
          simpa using hx
        | succ i' =>
          exact hfirst i' (by omega) b (by simpa using hb)
      · rintro ⟨j, hj, hpa, hfirst⟩
        cases j with
        | zero =>
          simp only [List.getElem?_cons_zero, Option.some.injEq] at hj
          subst hj
          exact absurd hpa (by simpa using hx)
        | succ j' =>
          refine ⟨j', by simpa using hj, hpa, ?_⟩
          intro i hi b hb
          exact hfirst (i + 1) (by omega) b (by simpa using hb)

theorem PromptNode.getNextTraced_mem_trace {T E : Type}
    (l : List (PromptNode T E)) (data : T) (j : Nat) :
    j ∈ (PromptNode.getNextTraced l data).2 ↔
      ((∃ c, l[j]? = some c ∧ c.condition.isSome = true) ∧
        ∀ i : Nat, i < j → ∀ c2, l[i]? = some c2 → c2.eligible data = false) := by
  induction l generalizing j with
  | nil => simp [PromptNode.getNextTraced]
  | cons child rest ih =>
    cases h : child.condition with
    | none =>
      have htr : (PromptNode.getNextTraced (child :: rest) data).2 = [] := by
        simp [PromptNode.getNextTraced, h]
      rw [htr]
      simp only [List.not_mem_nil, false_iff]
      rintro ⟨⟨c, hc, hcs⟩, hfirst⟩
      cases j with
      | zero =>
        simp only [List.getElem?_cons_zero, Option.some.injEq] at hc
        subst hc
        rw [h] at hcs
        cases hcs
      | succ j' =>
        have := hfirst 0 (by omega) child (by simp)
        rw [PromptNode.eligible_of_condition_none data h] at this
        cases this
    | some cond =>
      by_cases hc : cond data
      · have htr : (PromptNode.getNextTraced (child :: rest) data).2 = [0] := by
          simp [PromptNode.getNextTraced, h, hc]
        rw [htr]
        simp only [List.mem_singleton]
        constructor
        · rintro rfl
          exact ⟨⟨child, by simp, by simp [h]⟩, by omega⟩
        · rintro ⟨⟨c, hcj, hcs⟩, hfirst⟩
          cases j with
          | zero => rfl
          | succ j' =>
            have := hfirst 0 (by omega) child (by simp)
            rw [PromptNode.eligible_of_condition_some data h, hc] at this
            cases this
      · have htr : (PromptNode.getNextTraced (child :: rest) data).2 =
            0 :: (PromptNode.getNextTraced rest data).2.map (· + 1) := by
          simp [PromptNode.getNextTraced, h, hc]
        rw [htr]
        simp only [List.mem_cons, List.mem_map]
        cases j with
        | zero =>
          simp only [true_or, true_iff]
          exact ⟨⟨child, by simp, by simp [h]⟩, by omega⟩
        | succ j' =>
          constructor
          · rintro (hj | ⟨x, hx, hxj⟩)
            · cases hj
            · have hxj' : x = j' := by omega
              rw [hxj'] at hx
              obtain ⟨⟨c, hcj, hcs⟩, hfirst⟩ := (ih j').mp hx
              refine ⟨⟨c, by simpa using hcj, hcs⟩, ?_⟩
              intro i hi c2 hc2
              cases i with
              | zero =>
                simp only [List.getElem?_cons_zero, Option.some.injEq] at hc2
                subst hc2
                rw [PromptNode.eligible_of_condition_some data h]
                simpa using hc
              | succ i' =>
                exact hfirst i' (by omega) c2 (by simpa using hc2)
          · rintro ⟨⟨c, hcj, hcs⟩, hfirst⟩
            refine Or.inr ⟨j', ?_, by omega⟩
            rw [ih j']
            refine ⟨⟨c, by simpa using hcj, hcs⟩, ?_⟩
            intro i hi c2 hc2
            exact hfirst (i + 1) (by omega) c2 (by simpa using hc2)

theorem PromptNode.getNextTraced_sorted {T E : Type}
    (l : List (PromptNode T E)) (data : T) :
    List.Sorted (· < ·) (PromptNode.getNextTraced l data).2 := by
  induction l with
  | nil => simp [PromptNode.getNextTraced]
  | cons child rest ih =>
    cases h : child.condition with
    | none =>
      have htr : (PromptNode.getNextTraced (child :: rest) data).2 = [] := by
        simp [PromptNode.getNextTraced, h]
      rw [htr]
      simp
    | some cond =>
      by_cases hc : cond data
      · have htr : (PromptNode.getNextTraced (child :: rest) data).2 = [0] := by
          simp [PromptNode.getNextTraced, h, hc]
        rw [htr]
        simp
      · have htr : (PromptNode.getNextTraced (child :: rest) data).2 =
            0 :: (PromptNode.getNextTraced rest data).2.map (· + 1) := by
          simp [PromptNode.getNextTraced, h, hc]
        rw [htr, List.sorted_cons]
        refine ⟨?_, ?_⟩
        · intro b hb
          simp only [List.mem_map] at hb
          obtain ⟨x, _, hxb⟩ := hb
          omega
        · exact List.Pairwise.map _ (fun a b hab => by omega) ih

/-- C2: for every node and every data value, next-child selection evaluates
the branch conditions sequentially in declared order, returns the first
child that either has no condition or whose condition evaluates true, never
evaluates the condition of any later child once an eligible child is found,
and returns none when no child is eligible, including when the node has no
children. The instrumented scan getNextTraced records exactly the positions
whose condition functions are invoked. -/
theorem claim_C2_getNext_shortCircuit {T E : Type} (n : PromptNode T E)
    (data : T) :
    n.getNext data = n.children.find? (fun c => c.eligible data) ∧
    (PromptNode.getNextTraced n.children data).1 = n.getNext data ∧
    (∀ c, n.getNext data = some c ↔
      ∃ j : Nat, n.children[j]? = some c ∧ c.eligible data = true ∧
        ∀ i : Nat, i < j → ∀ c2, n.children[i]? = some c2 →
          c2.eligible data = false) ∧
    (n.getNext data = none ↔ ∀ c ∈ n.children, c.eligible data = false) ∧
    (∀ j : Nat, j ∈ (PromptNode.getNextTraced n.children data).2 ↔
      ((∃ c, n.children[j]? = some c ∧ c.condition.isSome = true) ∧
        ∀ i : Nat, i < j → ∀ c2, n.children[i]? = some c2 →
          c2.eligible data = false)) ∧
    List.Sorted (· < ·) (PromptNode.getNextTraced n.children data).2 := by
  refine ⟨rfl, ?_, ?_, ?_, ?_, ?_⟩
  · exact PromptNode.getNextTraced_fst n.children data
  · intro c
    exact find?_eq_some_first (fun c => c.eligible data) n.children c
  · simp [PromptNode.getNext]
  · intro j
    exact PromptNode.getNextTraced_mem_trace n.children data j
  · exact PromptNode.getNextTraced_sorted n.children data

theorem foldl_phaseStep_inv {T E : Type} (func : String → T → FuncResult T E)
    (data : T) (P : PhaseState T E → Prop)
    (hstep : ∀ s e, P s → P (phaseStep func data s e)) :
    ∀ (events : List PhaseEvent) (s : PhaseState T E),
      P s → P (events.foldl (phaseStep func data) s) := by
  intro events
  induction events with
  | nil =>
    intro s h
    simpa using h
  | cons e rest ih =>
    intro s h
    simp only [List.foldl_cons]
    exact ih _ (hstep s e h)

theorem phaseStep_timer {T E : Type} (func : String → T → FuncResult T E)
    (data : T) (duration : Nat) (s : PhaseState T E) (e : PhaseEvent)
    (h : timerClaim duration s) : timerClaim duration (phaseStep func data s e) := by
  obtain ⟨h1, h2, h3, h4, h5⟩ := h
  cases hs : s.status with
  | collecting =>
    have hdl := h2 hs
    cases e with
    | message content =>
      by_cases hc : content = exitToken
      · simp [phaseStep, hs, hc, timerClaim, h1]
      · cases hf : func content data with
        | ok newData => simp [phaseStep, hs, hc, hf, timerClaim, h1]
        | rejection msg => simp [phaseStep, hs, hc, hf, timerClaim, h1, hdl]
        | failure err => simp [phaseStep, hs, hc, hf, timerClaim, h1]
    | timerFire =>
      simp [phaseStep, hs, hdl, timerClaim, h1]
  | accepted d =>
    simp only [phaseStep, hs]
    exact ⟨h1, h2, h3, h4, h5⟩
  | exited =>
    simp only [phaseStep, hs]
    exact ⟨h1, h2, h3, h4, h5⟩
  | inactive =>
    simp only [phaseStep, hs]
    exact ⟨h1, h2, h3, h4, h5⟩
  | failed err =>
    simp only [phaseStep, hs]
    exact ⟨h1, h2, h3, h4, h5⟩

/-- C3: for every collection phase with a truthy configured duration, the
inactivity timer is armed exactly once when the phase starts, for the
configured duration measured from phase start; a Rejection outcome neither
cancels nor re-arms the timer, whose deadline stays the original absolute
one for the whole phase; and the timer is cancelled when the phase ends in
any terminal non-timeout outcome (accept, exit, or error). -/
theorem claim_C3_timer_absolute {T E : Type}
    (func : String → T → FuncResult T E) (data : T) (duration : Nat)
    (hdur : duration ≠ 0) (events : List PhaseEvent) :
    (phaseStart duration : PhaseState T E).armCount = 1 ∧
    (phaseStart duration : PhaseState T E).timerDeadline = some duration ∧
    (∀ (s : PhaseState T E) (content msg : String),
      content ≠ exitToken → func content data = FuncResult.rejection msg →
      (phaseStep func data s (PhaseEvent.message content)).timerDeadline =
        s.timerDeadline ∧
      (phaseStep func data s (PhaseEvent.message content)).armCount =
        s.armCount) ∧
    timerClaim duration (phaseRun func data duration events) := by
  refine ⟨by simp [phaseStart, hdur], by simp [phaseStart, hdur], ?_, ?_⟩
  · intro s content msg hc hf
    cases hs : s.status with
    | collecting => simp [phaseStep, hs, hc, hf]
    | accepted d => simp [phaseStep, hs]
    | exited => simp [phaseStep, hs]
    | inactive => simp [phaseStep, hs]
    | failed err => simp [phaseStep, hs]
  · have hstart : timerClaim duration (phaseStart duration : PhaseState T E) := by
      simp [timerClaim, phaseStart, hdur]
    simpa [phaseRun] using
      foldl_phaseStep_inv func data (timerClaim duration)
        (fun s e => phaseStep_timer func data duration s e) events
        (phaseStart duration) hstart

/-- Witness for C3: a concrete phase with duration 60000 that sees one
rejected message and one accepted message. -/
theorem claim_C3_timer_absolute_witness :
    (60000 : Nat) ≠ 0 ∧
    timerClaim 60000
      (phaseRun (E := Nat) (fun (c : String) (d : Nat) =>
          if c = "ok" then FuncResult.ok d else FuncResult.rejection "") 0 60000
        [PhaseEvent.message "nope", PhaseEvent.message "ok"]) :=
  ⟨by decide,
    (claim_C3_timer_absolute (E := Nat)
      (fun (c : String) (d : Nat) =>
        if c = "ok" then FuncResult.ok d else FuncResult.rejection "") 0 60000
      (by decide)
      [PhaseEvent.message "nope", PhaseEvent.message "ok"]).2.2.2⟩

/-- C5: for every incoming message event during a collection phase, if the
message content exactly equals the reserved exit token then the phase ends
in exited and the collection function is never invoked for that message;
the exit termination message is sent. -/
theorem claim_C5_exit_skips_function {T E : Type}
    (func : String → T → FuncResult T E) (data : T) (s : PhaseState T E)
    (content : String) (hs : s.status = PhaseStatus.collecting)
    (hc : content = exitToken) :
    (phaseStep func data s (PhaseEvent.message content)).status =
      PhaseStatus.exited ∧
    (phaseStep func data s (PhaseEvent.message content)).funcCalls =
      s.funcCalls ∧
    (phaseStep func data s (PhaseEvent.message content)).terminationSent =
      s.terminationSent ++ [exitString] := by
  subst hc
  simp [phaseStep, hs]

/-- Witness for C5: the exit token received while a concrete phase is
collecting. -/
theorem claim_C5_exit_skips_function_witness :
    (phaseStart 60000 : PhaseState Nat Nat).status = PhaseStatus.collecting ∧
    "exit" = exitToken ∧
    ((phaseStep (E := Nat) (fun (_ : String) (d : Nat) => FuncResult.ok d) 0
        (phaseStart 60000) (PhaseEvent.message "exit")).status =
      PhaseStatus.exited ∧
    (phaseStep (E := Nat) (fun (_ : String) (d : Nat) => FuncResult.ok d) 0
        (phaseStart 60000) (PhaseEvent.message "exit")).funcCalls =
      (phaseStart 60000 : PhaseState Nat Nat).funcCalls ∧
    (phaseStep (E := Nat) (fun (_ : String) (d : Nat) => FuncResult.ok d) 0
        (phaseStart 60000) (PhaseEvent.message "exit")).terminationSent =
      (phaseStart 60000 : PhaseState Nat Nat).terminationSent ++ [exitString]) :=
  ⟨rfl, rfl,
    claim_C5_exit_skips_function (E := Nat) (fun (_ : String) (d : Nat) => FuncResult.ok d)
      0 (phaseStart 60000) "exit" rfl rfl⟩

/-- C6: for every message whose collection function invocation fails with a
Rejection, the phase remains collecting: feedback equal to the Rejection
message, or the default rejection string when it carries none, is sent back
on the channel and recorded, the collector keeps listening, and the
Rejection never turns into a failed phase. -/
theorem claim_C6_rejection_keeps_collecting {T E : Type}
    (func : String → T → FuncResult T E) (data : T) (s : PhaseState T E)
    (content msg : String) (hs : s.status = PhaseStatus.collecting)
    (hc : content ≠ exitToken)
    (hf : func content data = FuncResult.rejection msg) :
    (phaseStep func data s (PhaseEvent.message content)).status =
      PhaseStatus.collecting ∧
    (phaseStep func data s (PhaseEvent.message content)).feedbackSent =
      s.feedbackSent ++ [if msg = "" then rejectedString else msg] ∧
    (phaseStep func data s (PhaseEvent.message content)).stored =
      s.stored ++ [content, if msg = "" then rejectedString else msg] ∧
    (∀ err, (phaseStep func data s (PhaseEvent.message content)).status ≠
      PhaseStatus.failed err) := by
  simp [phaseStep, hs, hc, hf]

/-- Witness for C6: a concrete rejected message with no Rejection message,
falling back to the default feedback string. -/
theorem claim_C6_rejection_keeps_collecting_witness :
    (phaseStart 60000 : PhaseState Nat Nat).status = PhaseStatus.collecting ∧
    "bad" ≠ exitToken ∧
    ((phaseStep (E := Nat) (fun (_ : String) (_ : Nat) => FuncResult.rejection "") 0
        (phaseStart 60000) (PhaseEvent.message "bad")).status =
      PhaseStatus.collecting ∧
    (phaseStep (E := Nat) (fun (_ : String) (_ : Nat) => FuncResult.rejection "") 0
        (phaseStart 60000) (PhaseEvent.message "bad")).feedbackSent =
      (phaseStart 60000 : PhaseState Nat Nat).feedbackSent ++
        [if "" = "" then rejectedString else ""] ∧
    (phaseStep (E := Nat) (fun (_ : String) (_ : Nat) => FuncResult.rejection "") 0
        (phaseStart 60000) (PhaseEvent.message "bad")).stored =
      (phaseStart 60000 : PhaseState Nat Nat).stored ++
        ["bad", if "" = "" then rejectedString else ""] ∧
    (∀ err, (phaseStep (E := Nat) (fun (_ : String) (_ : Nat) => FuncResult.rejection "") 0
        (phaseStart 60000) (PhaseEvent.message "bad")).status ≠
      PhaseStatus.failed err)) :=
  ⟨rfl, by decide,
    claim_C6_rejection_keeps_collecting (E := Nat)
      (fun (_ : String) (_ : Nat) => FuncResult.rejection "") 0
      (phaseStart 60000) "bad" "" rfl (by decide) rfl⟩

theorem phaseStep_zero_timer {T E : Type} (func : String → T → FuncResult T E)
    (data : T) (s : PhaseState T E) (e : PhaseEvent)
    (h : s.timerDeadline = none ∧ s.armCount = 0 ∧
      s.status ≠ PhaseStatus.inactive ∧
      inactivityString ∉ s.terminationSent) :
    (phaseStep func data s e).timerDeadline = none ∧
    (phaseStep func data s e).armCount = 0 ∧
    (phaseStep func data s e).status ≠ PhaseStatus.inactive ∧
    inactivityString ∉ (phaseStep func data s e).terminationSent := by
  obtain ⟨h1, h2, h3, h4⟩ := h
  cases hs : s.status with
  | collecting =>
    cases e with
    | message content =>
      by_cases hc : content = exitToken
      · have hres : phaseStep func data s (PhaseEvent.message content) =
            { s with status := PhaseStatus.exited
                     timerDeadline := none
                     terminationSent := s.terminationSent ++ [exitString]
                     stored := s.stored ++ [content, exitString] } := by
          simp [phaseStep, hs, hc]
        rw [hres]
        refine ⟨rfl, h2, by simp, ?_⟩
        simp only [List.mem_append, List.mem_singleton]
        rintro (hmem | hmem)
        · exact h4 hmem
        · exact absurd hmem (by decide)
      · cases hf : func content data with
        | ok newData => simp [phaseStep, hs, hc, hf, h1, h2, h4]
        | rejection msg => simp [phaseStep, hs, hc, hf, h1, h2, h4]
        | failure err => simp [phaseStep, hs, hc, hf, h1, h2, h4]
    | timerFire =>
      have hres : phaseStep func data s PhaseEvent.timerFire = s := by
        simp [phaseStep, hs, h1]
      rw [hres]
      exact ⟨h1, h2, h3, h4⟩
  | accepted d =>
    have hres : phaseStep func data s e = s := by
      simp [phaseStep, hs]
    rw [hres]
    exact ⟨h1, h2, h3, h4⟩
  | exited =>
    have hres : phaseStep func data s e = s := by
      simp [phaseStep, hs]
    rw [hres]
    exact ⟨h1, h2, h3, h4⟩
  | inactive => exact absurd hs h3
  | failed err =>
    have hres : phaseStep func data s e = s := by
      simp [phaseStep, hs]
    rw [hres]
    exact ⟨h1, h2, h3, h4⟩

/-- C10: for every collection phase whose configured duration is zero, no
inactivity timer is armed at all: the phase can never end in inactive and
no inactivity termination message is ever sent, whatever events arrive; the
phase keeps collecting until a message is accepted, the exit token is
received, or an error occurs. -/
theorem claim_C10_zero_duration_no_timer {T E : Type}
    (func : String → T → FuncResult T E) (data : T)
    (events : List PhaseEvent) :
    (phaseStart 0 : PhaseState T E).timerDeadline = none ∧
    (phaseStart 0 : PhaseState T E).armCount = 0 ∧
    (phaseRun func data 0 events).timerDeadline = none ∧
    (phaseRun func data 0 events).armCount = 0 ∧
    (phaseRun func data 0 events).status ≠ PhaseStatus.inactive ∧
    inactivityString ∉ (phaseRun func data 0 events).terminationSent := by
  have hstart : (phaseStart 0 : PhaseState T E).timerDeadline = none ∧
      (phaseStart 0 : PhaseState T E).armCount = 0 ∧
      (phaseStart 0 : PhaseState T E).status ≠ PhaseStatus.inactive ∧
      inactivityString ∉ (phaseStart 0 : PhaseState T E).terminationSent := by
    simp [phaseStart]
  have hrun := foldl_phaseStep_inv func data
    (fun s => s.timerDeadline = none ∧ s.armCount = 0 ∧
      s.status ≠ PhaseStatus.inactive ∧
      inactivityString ∉ s.terminationSent)
    (fun s e => phaseStep_zero_timer func data s e) events (phaseStart 0) hstart
  rw [show phaseRun func data 0 events =
      events.foldl (phaseStep func data) (phaseStart 0) from rfl]
  exact ⟨hstart.1, hstart.2.1, hrun.1, hrun.2.1, hrun.2.2.1, hrun.2.2.2⟩

/-- Witness for C10: a concrete zero-duration phase that sees a timer-fire
event and a rejected message yet never goes inactive. -/
theorem claim_C10_zero_duration_no_timer_witness :
    (phaseStart 0 : PhaseState Nat Nat).timerDeadline = none ∧
    (phaseStart 0 : PhaseState Nat Nat).armCount = 0 ∧
    (phaseRun (E := Nat) (fun (_ : String) (_ : Nat) => FuncResult.rejection "bad") 0 0
      [PhaseEvent.timerFire, PhaseEvent.message "hello"]).timerDeadline = none ∧
    (phaseRun (E := Nat) (fun (_ : String) (_ : Nat) => FuncResult.rejection "bad") 0 0
      [PhaseEvent.timerFire, PhaseEvent.message "hello"]).armCount = 0 ∧
    (phaseRun (E := Nat) (fun (_ : String) (_ : Nat) => FuncResult.rejection "bad") 0 0
      [PhaseEvent.timerFire, PhaseEvent.message "hello"]).status ≠
      PhaseStatus.inactive ∧
    inactivityString ∉
      (phaseRun (E := Nat) (fun (_ : String) (_ : Nat) => FuncResult.rejection "bad") 0 0
        [PhaseEvent.timerFire, PhaseEvent.message "hello"]).terminationSent :=
  claim_C10_zero_duration_no_timer (E := Nat)
    (fun (_ : String) (_ : Nat) => FuncResult.rejection "bad") 0
    [PhaseEvent.timerFire, PhaseEvent.message "hello"]

theorem visitNode_fn_none {T E : Type} (n : PromptNode T E) (data : T)
    (h : n.fn = none) : visitNode n data = visitChildren n data := by
  unfold visitNode
  simp [h]

theorem visitNode_fn_accepted {T E : Type} (n : PromptNode T E)
    (data newData : T) (f : T → PhaseResult T E) (h : n.fn = some f)
    (ha : f data = PhaseResult.accepted newData) :
    visitNode n data =
      ({ (visitChildren n newData).1 with
          collectors := n.id :: (visitChildren n newData).1.collectors },
        (visitChildren n newData).2) := by
  unfold visitNode
  simp [h, ha]

theorem visitNode_fn_exited {T E : Type} (n : PromptNode T E) (data : T)
    (f : T → PhaseResult T E) (h : n.fn = some f)
    (ha : f data = PhaseResult.exited) :
    visitNode n data =
      ({ Effects.empty with
          collectors := [n.id]
          termSends := [exitString] }, Except.error Fatal.voluntaryExit) := by
  unfold visitNode
  simp [h, ha]

theorem visitNode_fn_inactive {T E : Type} (n : PromptNode T E) (data : T)
    (f : T → PhaseResult T E) (h : n.fn = some f)
    (ha : f data = PhaseResult.inactive) :
    visitNode n data =
      ({ Effects.empty with
          collectors := [n.id]
          termSends := [inactivityString] }, Except.error Fatal.inactivity) := by
  unfold visitNode
  simp [h, ha]

theorem visitNode_fn_failed {T E : Type} (n : PromptNode T E) (data : T)
    (f : T → PhaseResult T E) (err : E) (h : n.fn = some f)
    (ha : f data = PhaseResult.failed err) :
    visitNode n data =
      ({ Effects.empty with collectors := [n.id] },
        Except.error (Fatal.unexpected err)) := by
  unfold visitNode
  simp [h, ha]

theorem visitChildren_getNext_none {T E : Type} (n : PromptNode T E) (data : T)
    (h : n.getNext data = none) :
    visitChildren n data = (Effects.empty, Except.ok data) := by
  unfold visitChildren
  split
  · rfl
  · rename_i c heq
    rw [h] at heq
    cases heq

theorem visitChildren_getNext_some {T E : Type} (n c : PromptNode T E)
    (data : T) (h : n.getNext data = some c) :
    visitChildren n data =
      ({ (visitNode c data).1 with
          trace := c.id :: (visitNode c data).1.trace
          sends := c.id :: (visitNode c data).1.sends },
        (visitNode c data).2) := by
  unfold visitChildren
  split
  · rename_i heq
    rw [h] at heq
    cases heq
  · rename_i c2 heq
    rw [h] at heq
    injection heq with heq
    subst heq
    rfl

theorem execute_def {T E : Type} (n : PromptNode T E) (data : T) :
    execute n data =
      ({ (visitNode n data).1 with
          trace := n.id :: (visitNode n data).1.trace
          sends := n.id :: (visitNode n data).1.sends },
        (visitNode n data).2) := rfl

theorem PromptNode.self_mem_allNodes {T E : Type} (n : PromptNode T E) :
    n ∈ n.allNodes := by
  rw [PromptNode.allNodes_def]
  exact List.mem_cons_self _ _

theorem PromptNode.cons_subIds_subset {T E : Type} {c n : PromptNode T E}
    (hc : c ∈ n.children) : c.id :: c.subIds ⊆ n.subIds := by
  intro x hx
  rw [PromptNode.subIds]
  rcases List.mem_cons.mp hx with hx0 | hx'
  · subst hx0
    exact List.mem_map.mpr ⟨c,
      PromptNode.mem_allNodesList.mpr ⟨c, hc, PromptNode.self_mem_allNodes c⟩, rfl⟩
  · rw [PromptNode.subIds] at hx'
    obtain ⟨m, hm, hid⟩ := List.mem_map.mp hx'
    have hmc : m ∈ c.allNodes := by
      rw [PromptNode.allNodes_def]
      exact List.mem_cons_of_mem _ hm
    exact List.mem_map.mpr ⟨m, PromptNode.mem_allNodesList.mpr ⟨c, hc, hmc⟩, hid⟩

theorem PromptNode.getNext_mem_children {T E : Type} {n c : PromptNode T E}
    {data : T} (h : n.getNext data = some c) : c ∈ n.children :=
  List.mem_of_find?_eq_some (p := fun child => child.eligible data)
    (by simpa [PromptNode.getNext] using h)

theorem visit_effects_scope {T E : Type} (n : PromptNode T E) :
    ∀ data : T,
      ((visitChildren n data).1.trace ⊆ n.subIds ∧
        (visitChildren n data).1.sends ⊆ n.subIds ∧
        (visitChildren n data).1.collectors ⊆ n.subIds) ∧
      ((visitNode n data).1.trace ⊆ n.subIds ∧
        (visitNode n data).1.sends ⊆ n.subIds ∧
        (visitNode n data).1.collectors ⊆ n.id :: n.subIds) := by
  induction n using PromptNode.strongInduction with
  | step i cond f children ih =>
    have hvc : ∀ data : T,
        (visitChildren (PromptNode.mk i cond f children) data).1.trace ⊆
          (PromptNode.mk i cond f children).subIds ∧
        (visitChildren (PromptNode.mk i cond f children) data).1.sends ⊆
          (PromptNode.mk i cond f children).subIds ∧
        (visitChildren (PromptNode.mk i cond f children) data).1.collectors ⊆
          (PromptNode.mk i cond f children).subIds := by
      intro data
      cases hnext : (PromptNode.mk i cond f children).getNext data with
      | none =>
        rw [visitChildren_getNext_none _ _ hnext]
        simp [Effects.empty]
      | some c =>
        have hcm : c ∈ children := by
          simpa using PromptNode.getNext_mem_children hnext
        have hC : c.id :: c.subIds ⊆ (PromptNode.mk i cond f children).subIds :=
          PromptNode.cons_subIds_subset (by simpa using hcm)
        obtain ⟨-, hNt, hNs, hNc⟩ := ih c hcm data
        rw [visitChildren_getNext_some _ c data hnext]
        refine ⟨?_, ?_, ?_⟩
        · intro x hx
          rcases List.mem_cons.mp hx with hx0 | hx'
          · subst hx0
            exact hC (List.mem_cons_self _ _)
          · exact hC (List.mem_cons_of_mem _ (hNt hx'))
        · intro x hx
          rcases List.mem_cons.mp hx with hx0 | hx'
          · subst hx0
            exact hC (List.mem_cons_self _ _)
          · exact hC (List.mem_cons_of_mem _ (hNs hx'))
        · intro x hx
          exact hC (hNc hx)
    intro data
    refine ⟨hvc data, ?_⟩
    cases f with
    | none =>
      rw [visitNode_fn_none _ data (by simp)]
      obtain ⟨ht, hs', hcol⟩ := hvc data
      exact ⟨fun x hx => ht hx, fun x hx => hs' hx,
        fun x hx => List.mem_cons_of_mem _ (hcol hx)⟩
    | some f0 =>
      cases ha : f0 data with
      | accepted newData =>
        rw [visitNode_fn_accepted _ data newData f0 (by simp) ha]
        obtain ⟨ht, hs', hcol⟩ := hvc newData
        refine ⟨fun x hx => ht hx, fun x hx => hs' hx, ?_⟩
        intro x hx
        rcases List.mem_cons.mp hx with hx0 | hx'
        · subst hx0
          simp
        · exact List.mem_cons_of_mem _ (hcol hx')
      | exited =>
        rw [visitNode_fn_exited _ data f0 (by simp) ha]
        refine ⟨by simp [Effects.empty], by simp [Effects.empty], ?_⟩
        intro x hx
        simp only [List.mem_singleton] at hx
        subst hx
        simp
      | inactive =>
        rw [visitNode_fn_inactive _ data f0 (by simp) ha]
        refine ⟨by simp [Effects.empty], by simp [Effects.empty], ?_⟩
        intro x hx
        simp only [List.mem_singleton] at hx
        subst hx
        simp
      | failed err =>
        rw [visitNode_fn_failed _ data f0 err (by simp) ha]
        refine ⟨by simp [Effects.empty], by simp [Effects.empty], ?_⟩
        intro x hx
        simp only [List.mem_singleton] at hx
        subst hx
        simp

/-- C4: when a collection phase ends in exited (reserved exit token) or
inactive (deadline elapsed), the whole traversal terminates at that node and
a fatal signal, voluntary exit or inactivity respectively, surfaces to the
caller of run and execute rather than being swallowed; a fatal error result
of a deeper visit propagates unchanged through branch selection. -/
theorem claim_C4_fatal_surfaces {T E : Type} (n : PromptNode T E)
    (f : T → PhaseResult T E) (data : T) (hfn : n.fn = some f) :
    (f data = PhaseResult.exited →
      execute n data =
        ({ trace := [n.id], sends := [n.id], collectors := [n.id],
           termSends := [exitString] }, Except.error Fatal.voluntaryExit)) ∧
    (f data = PhaseResult.inactive →
      execute n data =
        ({ trace := [n.id], sends := [n.id], collectors := [n.id],
           termSends := [inactivityString] }, Except.error Fatal.inactivity)) ∧
    (∀ (newData : T) (c : PromptNode T E) (fatal : Fatal E),
      f data = PhaseResult.accepted newData → n.getNext newData = some c →
      (execute c newData).2 = Except.error fatal →
      (execute n data).2 = Except.error fatal) := by
  refine ⟨?_, ?_, ?_⟩
  · intro ha
    rw [execute_def, visitNode_fn_exited n data f hfn ha]
    simp [Effects.empty]
  · intro ha
    rw [execute_def, visitNode_fn_inactive n data f hfn ha]
    simp [Effects.empty]
  · intro newData c fatal ha hnext hc
    rw [execute_def] at hc ⊢
    rw [visitNode_fn_accepted n data newData f hfn ha]
    rw [visitChildren_getNext_some n c newData hnext]
    simpa using hc

/-- Witness for C4: two concrete leaf nodes whose phases end in exited and
inactive. -/
theorem claim_C4_fatal_surfaces_witness :
    execute (PromptNode.mk 3 none (some (fun _ => PhaseResult.exited))
        ([] : List (PromptNode Nat Nat))) 0 =
      ({ trace := [3], sends := [3], collectors := [3],
         termSends := [exitString] }, Except.error Fatal.voluntaryExit) ∧
    execute (PromptNode.mk 4 none (some (fun _ => PhaseResult.inactive))
        ([] : List (PromptNode Nat Nat))) 0 =
      ({ trace := [4], sends := [4], collectors := [4],
         termSends := [inactivityString] }, Except.error Fatal.inactivity) :=
  ⟨(claim_C4_fatal_surfaces (PromptNode.mk 3 none
      (some (fun _ => PhaseResult.exited)) ([] : List (PromptNode Nat Nat)))
      (fun _ => PhaseResult.exited) 0 rfl).1 rfl,
    (claim_C4_fatal_surfaces (PromptNode.mk 4 none
      (some (fun _ => PhaseResult.inactive)) ([] : List (PromptNode Nat Nat)))
      (fun _ => PhaseResult.inactive) 0 rfl).2.1 rfl⟩

/-- C7: for every message whose collection function invocation fails with a
non-Rejection error, the phase ends in failed carrying that very error, no
termination message and no feedback is sent; and at the traversal level a
phase failing with an error makes execute abort with that error surfaced
unmodified and no termination message sent. -/
theorem claim_C7_unexpected_error {T E : Type}
    (func : String → T → FuncResult T E) (data : T) (s : PhaseState T E)
    (content : String) (err : E) (hs : s.status = PhaseStatus.collecting)
    (hc : content ≠ exitToken) (hf : func content data = FuncResult.failure err)
    {V F : Type} (n : PromptNode V F) (f : V → PhaseResult V F)
    (d : V) (e : F) (hfn : n.fn = some f) (hp : f d = PhaseResult.failed e) :
    ((phaseStep func data s (PhaseEvent.message content)).status =
        PhaseStatus.failed err ∧
      (phaseStep func data s (PhaseEvent.message content)).terminationSent =
        s.terminationSent ∧
      (phaseStep func data s (PhaseEvent.message content)).feedbackSent =
        s.feedbackSent) ∧
    execute n d =
      ({ trace := [n.id], sends := [n.id], collectors := [n.id],
         termSends := [] }, Except.error (Fatal.unexpected e)) := by
  constructor
  · simp [phaseStep, hs, hc, hf]
  · rw [execute_def, visitNode_fn_failed n d f e hfn hp]
    simp [Effects.empty]

/-- Witness for C7: a concrete failing collection function in a phase and a
concrete node whose phase fails. -/
theorem claim_C7_unexpected_error_witness :
    (((phaseStep (E := Nat) (fun (_ : String) (_ : Nat) => FuncResult.failure 7) 0
        (phaseStart 60000) (PhaseEvent.message "boom")).status =
      PhaseStatus.failed 7 ∧
    (phaseStep (E := Nat) (fun (_ : String) (_ : Nat) => FuncResult.failure 7) 0
        (phaseStart 60000) (PhaseEvent.message "boom")).terminationSent =
      (phaseStart 60000 : PhaseState Nat Nat).terminationSent ∧
    (phaseStep (E := Nat) (fun (_ : String) (_ : Nat) => FuncResult.failure 7) 0
        (phaseStart 60000) (PhaseEvent.message "boom")).feedbackSent =
      (phaseStart 60000 : PhaseState Nat Nat).feedbackSent) ∧
    execute (PromptNode.mk 5 none (some (fun _ => PhaseResult.failed 9))
        ([] : List (PromptNode Nat Nat))) 0 =
      ({ trace := [5], sends := [5], collectors := [5],
         termSends := [] }, Except.error (Fatal.unexpected 9))) :=
  claim_C7_unexpected_error
    (fun (_ : String) (_ : Nat) => FuncResult.failure 7) 0 (phaseStart 60000)
    "boom" 7 rfl (by decide) rfl
    (PromptNode.mk 5 none (some (fun _ => PhaseResult.failed 9))
      ([] : List (PromptNode Nat Nat)))
    (fun _ => PhaseResult.failed 9) 0 9 rfl rfl

/-- C8: for every step that has no collection function, a traversal visiting
its node records it in the trace exactly once, sends exactly one outbound
message for it, never creates a collector for it, and yields the data
unchanged so that branch selection over its children still runs, regardless
of whether it has children. The freshness hypothesis states that the node is
not aliased by a descendant. -/
theorem claim_C8_display_only_passthrough {T E : Type} (n : PromptNode T E)
    (data : T) (hfn : n.fn = none) (hfresh : n.id ∉ n.subIds) :
    (execute n data).1.trace.count n.id = 1 ∧
    (execute n data).1.sends.count n.id = 1 ∧
    n.id ∉ (execute n data).1.collectors ∧
    (n.getNext data = none →
      execute n data =
        ({ trace := [n.id], sends := [n.id], collectors := [],
           termSends := [] }, Except.ok data)) ∧
    (∀ c, n.getNext data = some c →
      execute n data =
        ({ trace := n.id :: c.id :: (visitNode c data).1.trace,
           sends := n.id :: c.id :: (visitNode c data).1.sends,
           collectors := (visitNode c data).1.collectors,
           termSends := (visitNode c data).1.termSends },
          (visitNode c data).2)) := by
  have hvn := visitNode_fn_none n data hfn
  obtain ⟨⟨hct, hcs, hcc⟩, -⟩ := visit_effects_scope n data
  have htail : n.id ∉ (visitChildren n data).1.trace :=
    fun hmem => hfresh (hct hmem)
  have hstail : n.id ∉ (visitChildren n data).1.sends :=
    fun hmem => hfresh (hcs hmem)
  have hcol : n.id ∉ (visitChildren n data).1.collectors :=
    fun hmem => hfresh (hcc hmem)
  refine ⟨?_, ?_, ?_, ?_, ?_⟩
  · rw [execute_def, hvn]
    simp [List.count_eq_zero.mpr htail]
  · rw [execute_def, hvn]
    simp [List.count_eq_zero.mpr hstail]
  · rw [execute_def, hvn]
    simpa using hcol
  · intro hnone
    rw [execute_def, hvn, visitChildren_getNext_none n data hnone]
    simp [Effects.empty]
  · intro c hsome
    rw [execute_def, hvn, visitChildren_getNext_some n c data hsome]

/-- Witness for C8: a concrete childless display-only node. -/
theorem claim_C8_display_only_passthrough_witness :
    (execute (PromptNode.mk 0 none none ([] : List (PromptNode Nat Nat)))
        9).1.trace.count 0 = 1 ∧
    (execute (PromptNode.mk 0 none none ([] : List (PromptNode Nat Nat)))
        9).1.sends.count 0 = 1 ∧
    (0 : Nat) ∉ (execute (PromptNode.mk 0 none none
        ([] : List (PromptNode Nat Nat))) 9).1.collectors ∧
    ((PromptNode.mk 0 none none ([] : List (PromptNode Nat Nat))).getNext 9 =
        none →
      execute (PromptNode.mk 0 none none ([] : List (PromptNode Nat Nat))) 9 =
        ({ trace := [0], sends := [0], collectors := [],
           termSends := [] }, Except.ok 9)) ∧
    (∀ c, (PromptNode.mk 0 none none
        ([] : List (PromptNode Nat Nat))).getNext 9 = some c →
      execute (PromptNode.mk 0 none none ([] : List (PromptNode Nat Nat))) 9 =
        ({ trace := 0 :: c.id :: (visitNode c 9).1.trace,
           sends := 0 :: c.id :: (visitNode c 9).1.sends,
           collectors := (visitNode c 9).1.collectors,
           termSends := (visitNode c 9).1.termSends }, (visitNode c 9).2)) :=
  claim_C8_display_only_passthrough
    (PromptNode.mk 0 none none ([] : List (PromptNode Nat Nat))) 9 rfl
    (by simp [PromptNode.subIds, PromptNode.allNodesList])

/-- C9: for every root node, run first validates the whole tree; when
validation fails it fails with the structural-invalid error with nothing
sent and no traversal; when validation succeeds it delegates to execute. -/
theorem claim_C9_run_validates_first {T E : Type} (n : PromptNode T E)
    (data : T) :
    (PromptRunner.valid n = false →
      run n data = (Effects.empty, Except.error RunError.invalidTree)) ∧
    (PromptRunner.valid n = true →
      run n data = ((execute n data).1,
        (execute n data).2.mapError RunError.fatal)) := by
  constructor
  · intro h
    simp [run, h]
  · intro h
    simp [run, h]

/-- Witness for C9: a concrete invalid tree (two condition-free children)
and a concrete valid leaf. -/
theorem claim_C9_run_validates_first_witness :
    PromptRunner.valid (PromptNode.mk 0 none none
      [PromptNode.mk 1 none none ([] : List (PromptNode Nat Nat)),
        PromptNode.mk 2 none none ([] : List (PromptNode Nat Nat))]) = false ∧
    run (PromptNode.mk 0 none none
      [PromptNode.mk 1 none none ([] : List (PromptNode Nat Nat)),
        PromptNode.mk 2 none none ([] : List (PromptNode Nat Nat))]) 0 =
      (Effects.empty, Except.error RunError.invalidTree) ∧
    PromptRunner.valid (PromptNode.mk 7 none none
      ([] : List (PromptNode Nat Nat))) = true ∧
    run (PromptNode.mk 7 none none ([] : List (PromptNode Nat Nat))) 0 =
      ((execute (PromptNode.mk 7 none none
          ([] : List (PromptNode Nat Nat))) 0).1,
        (execute (PromptNode.mk 7 none none
          ([] : List (PromptNode Nat Nat))) 0).2.mapError RunError.fatal) := by
  have hbad : PromptRunner.valid (PromptNode.mk 0 none none
      [PromptNode.mk 1 none none ([] : List (PromptNode Nat Nat)),
        PromptNode.mk 2 none none ([] : List (PromptNode Nat Nat))]) = false := by
    simp [PromptRunner.valid, PromptRunner.validChildren, PromptNode.condition]
  have hgood : PromptRunner.valid (PromptNode.mk 7 none none
      ([] : List (PromptNode Nat Nat))) = true := by
    simp [PromptRunner.valid, PromptRunner.validChildren]
  exact ⟨hbad,
    (claim_C9_run_validates_first (PromptNode.mk 0 none none
      [PromptNode.mk 1 none none ([] : List (PromptNode Nat Nat)),
        PromptNode.mk 2 none none ([] : List (PromptNode Nat Nat))]) 0).1 hbad,
    hgood,
    (claim_C9_run_validates_first (PromptNode.mk 7 none none
      ([] : List (PromptNode Nat Nat))) 0).2 hgood⟩

end DiscordMenus
